/-
Verification of the metadata patcher (`patch_model.py`) and the training
pipeline (`train_cifar10.py`) of the cifar10-app repository.

The patcher is a Python script operating on a parsed JSON document.  We embed
parsed JSON values as the inductive type `Json` (numeric literals are carried
as their source text, since the patcher never inspects numbers), and embed the
script's two mutation loops as pure functions returning `Except PyError Json`,
where `PyError` records which Python exception class an operation raises
(`AttributeError` from calling `.get`/`.pop`/`.startswith` on a value that
lacks the method, `TypeError` from `in`/iteration/`list.pop` misuse).
Python `dict`s parsed from JSON have unique keys; association-list operations
below act on the first occurrence of a key (`removeKey` uses `filter`, which
agrees with single-occurrence removal on unique-key lists).
-/
import Mathlib

inductive PyError where
  | attributeError
  | typeError
deriving DecidableEq

inductive Json where
  | null
  | bool (b : Bool)
  | num (lit : String)
  | str (s : String)
  | arr (elems : List Json)
  | obj (entries : List (String × Json))

/-- First value bound to key `k`, like a Python `dict` lookup. -/
def getKey? : List (String × Json) → String → Option Json
  | [], _ => none
  | (k', v) :: rest, k => if k' = k then some v else getKey? rest k

/-- Python's `d.get(k, default)` on a dict represented as an entry list. -/
def lookupD (kvs : List (String × Json)) (k : String) (d : Json) : Json :=
  (getKey? kvs k).getD d

/-- Python's `k in d` for a dict. -/
def hasEntry (kvs : List (String × Json)) (k : String) : Bool :=
  (getKey? kvs k).isSome

/-- Python's `d[k] = v`: replace the value in place if the key is present
(keeping its position), otherwise append the new entry at the end. -/
def setKey : List (String × Json) → String → Json → List (String × Json)
  | [], k, v => [(k, v)]
  | (k', w) :: rest, k, v =>
    if k' = k then (k', v) :: rest else (k', w) :: setKey rest k v

/-- Python's `d.pop(k)` (removal part): drop the entry named `k`. -/
def removeKey (kvs : List (String × Json)) (k : String) : List (String × Json) :=
  kvs.filter (fun p => p.1 ≠ k)

/-- Rewrite the value at key `k` (first occurrence) through `f`; a no-op when
the key is absent.  Used to express the in-place mutations of the script. -/
def updateKey : List (String × Json) → String → (Json → Json) → List (String × Json)
  | [], _, _ => []
  | (k', v) :: rest, k, f =>
    if k' = k then (k', f v) :: rest else (k', v) :: updateKey rest k f

/-- Python's `s.startswith(p)` (strings compared by code points). -/
def pyStartsWith (s pre : String) : Bool :=
  pre.data.isPrefixOf s.data

/-- Python's slice `s[n:]` (by code points). -/
def pyDrop (s : String) (n : Nat) : String :=
  String.mk (s.data.drop n)

/-- Python's `needle in hay` for two strings: substring containment. -/
def strContains : List Char → List Char → Bool
  | needle, hay =>
    needle.isPrefixOf hay ||
      match hay with
      | [] => false
      | _ :: t => strContains needle t

/-- Python's `needle in v` where `needle` is a string: key membership for a
dict, substring test for a string, element equality for a list, and a
`TypeError` for the non-container values. -/
def pyContains (needle : String) (v : Json) : Except PyError Bool :=
  match v with
  | .obj kvs => .ok (hasEntry kvs needle)
  | .str s => .ok (strContains needle.data s.data)
  | .arr xs => .ok (xs.any (fun x => match x with | .str t => t = needle | _ => false))
  | _ => .error .typeError

/-- Python's `for x in v`: a list yields its elements, a dict its keys, a
string its one-character substrings; other values raise `TypeError`. -/
def iterElems : Json → Except PyError (List Json)
  | .arr xs => .ok xs
  | .obj kvs => .ok (kvs.map (fun p => .str p.1))
  | .str s => .ok (s.data.map (fun c => .str (String.singleton c)))
  | _ => .error .typeError

/-- Effectful map over a list, stopping at the first error, matching how an
exception raised mid-loop propagates out of the script. -/
def mapME (f : Json → Except PyError Json) : List Json → Except PyError (List Json)
  | [] => .ok []
  | x :: xs =>
    match f x with
    | .error e => .error e
    | .ok y =>
      match mapME f xs with
      | .error e => .error e
      | .ok ys => .ok (y :: ys)

/-- Body of the first loop of `patch_model.py` (lines 14-18), acting on one
element `L` of the layer sequence:

    if L.get("class_name") == "InputLayer":
        cfg = L.get("config", {})
        if "batch_shape" in cfg and "batch_input_shape" not in cfg:
            cfg["batch_input_shape"] = cfg.pop("batch_shape")

A non-dict element raises `AttributeError` at `L.get`.  When `"config"` is
absent, `cfg` is a fresh empty dict, the membership test fails, and nothing
changes.  When the rename fires, `cfg` aliases the nested dict, so the
updated config is written back at the `"config"` key. -/
def patchLayer : Json → Except PyError Json
  | .obj kvs =>
    match lookupD kvs "class_name" .null with
    | .str cn =>
      if cn = "InputLayer" then
        let cfg := lookupD kvs "config" (.obj [])
        match pyContains "batch_shape" cfg with
        | .error e => .error e
        | .ok false => .ok (.obj kvs)
        | .ok true =>
          match pyContains "batch_input_shape" cfg with
          | .error e => .error e
          | .ok true => .ok (.obj kvs)
          | .ok false =>
            match cfg with
            | .obj c =>
              let v := lookupD c "batch_shape" .null
              .ok (.obj (setKey kvs "config"
                (.obj (setKey (removeKey c "batch_shape") "batch_input_shape" v))))
            | .str _ => .error .attributeError
            | _ => .error .typeError
      else .ok (.obj kvs)
    | _ => .ok (.obj kvs)
  | _ => .error .attributeError

/-- Body of the inner loop of `patch_model.py` (lines 23-25), acting on one
weight descriptor `w`:

    name = w.get("name", "")
    if name.startswith("sequential/"):
        w["name"] = name[len("sequential/"):]

A non-dict `w` raises `AttributeError` at `w.get`; a present `"name"` bound
to a non-string raises `AttributeError` at `.startswith`. -/
def patchWeight : Json → Except PyError Json
  | .obj kvs =>
    match lookupD kvs "name" (.str "") with
    | .str s =>
      if pyStartsWith s "sequential/" then
        .ok (.obj (setKey kvs "name" (.str (pyDrop s "sequential/".length))))
      else .ok (.obj kvs)
    | _ => .error .attributeError
  | _ => .error .attributeError

/-- Body of the outer manifest loop (lines 22-25), acting on one manifest
group `m`: `for w in m.get("weights", []): ...`.  A missing `"weights"` key
iterates a fresh empty list (a no-op); a present list has each element
patched in place, so the rebuilt list is written back at `"weights"`. -/
def patchGroup : Json → Except PyError Json
  | .obj kvs =>
    match getKey? kvs "weights" with
    | none => .ok (.obj kvs)
    | some ws =>
      match iterElems ws with
      | .error e => .error e
      | .ok elems =>
        match mapME patchWeight elems with
        | .error e => .error e
        | .ok elems2 =>
          match ws with
          | .arr _ => .ok (.obj (setKey kvs "weights" (.arr elems2)))
          | _ => .ok (.obj kvs)
  | _ => .error .attributeError

/-- The chained lookup of lines 8-13:

    layers = (j.get("modelTopology", {}).get("model_config", {})
               .get("config", {}).get("layers", []))

`j` is already known to be a dict here; each later `.get` raises
`AttributeError` when its receiver is not a dict. -/
def getLayers (top : List (String × Json)) : Except PyError Json :=
  match lookupD top "modelTopology" (.obj []) with
  | .obj m1 =>
    match lookupD m1 "model_config" (.obj []) with
    | .obj m2 =>
      match lookupD m2 "config" (.obj []) with
      | .obj m3 => .ok (lookupD m3 "layers" (.arr []))
      | _ => .error .attributeError
    | _ => .error .attributeError
  | _ => .error .attributeError

/-- In-place replacement of the layers list, innermost level: the loop only
mutates when the value reached is an actual list. -/
def setInLs (es : List Json) (ls : Json) : Json :=
  match ls with
  | .arr _ => .arr es
  | other => other

def setInCf (es : List Json) (cf : Json) : Json :=
  match cf with
  | .obj m3 => .obj (updateKey m3 "layers" (setInLs es))
  | other => other

def setInMc (es : List Json) (mc : Json) : Json :=
  match mc with
  | .obj m2 => .obj (updateKey m2 "config" (setInCf es))
  | other => other

def setInMt (es : List Json) (mt : Json) : Json :=
  match mt with
  | .obj m1 => .obj (updateKey m1 "model_config" (setInMc es))
  | other => other

/-- Write the (patched) layer elements back through the access path.  Because
the Python loop mutates the list object in place, the write-back reaches the
document exactly when every step of the chained lookup found a real value:
any step that fell back to a default operated on a fresh object disconnected
from the document, and then the written-back elements are unchanged anyway. -/
def setLayers (j : Json) (es : List Json) : Json :=
  match j with
  | .obj top => .obj (updateKey top "modelTopology" (setInMt es))
  | other => other

/-- First half of the script (lines 8-18): locate the layer sequence and
apply `patchLayer` to each element.  A non-dict document raises
`AttributeError` at the first `j.get`. -/
def patch1 : Json → Except PyError Json
  | .obj top =>
    match getLayers top with
    | .error e => .error e
    | .ok ls =>
      match iterElems ls with
      | .error e => .error e
      | .ok es =>
        match mapME patchLayer es with
        | .error e => .error e
        | .ok es2 => .ok (setLayers (.obj top) es2)
  | _ => .error .attributeError

/-- In-place replacement of the manifest list (only an actual list object is
mutated by the loop). -/
def wmRepl (gs2 : List Json) (wm : Json) : Json :=
  match wm with
  | .arr _ => .arr gs2
  | other => other

/-- Second half of the script (lines 21-25): `for m in
j.get("weightsManifest", []): ...`. -/
def patch2 : Json → Except PyError Json
  | .obj top =>
    match iterElems (lookupD top "weightsManifest" (.arr [])) with
    | .error e => .error e
    | .ok gs =>
      match mapME patchGroup gs with
      | .error e => .error e
      | .ok gs2 => .ok (.obj (updateKey top "weightsManifest" (wmRepl gs2)))
  | _ => .error .attributeError

/-- The whole in-memory transformation of `patch_model.py`: the layer-rename
pass followed by the prefix-strip pass.  An uncaught exception in either pass
aborts the script before the file is rewritten, so the partial mutations a
real exception leaves behind in memory are never observable. -/
def patch (j : Json) : Except PyError Json :=
  match patch1 j with
  | .error e => .error e
  | .ok j1 => patch2 j1

/-! ### Observables of the document, used to state the claims -/

/-- The value reached by `modelTopology -> model_config -> config -> layers`
when every step of the path is a JSON object with the key present. -/
def layersVal (d : Json) : Option Json :=
  match d with
  | .obj top =>
    match getKey? top "modelTopology" with
    | some (.obj m1) =>
      match getKey? m1 "model_config" with
      | some (.obj m2) =>
        match getKey? m2 "config" with
        | some (.obj m3) => getKey? m3 "layers"
        | _ => none
      | _ => none
    | _ => none
  | _ => none

/-- The sequence of layer descriptors (empty unless the path reaches a list). -/
def layersOf (d : Json) : List Json :=
  match layersVal d with
  | some (.arr xs) => xs
  | _ => []

/-- The key renaming invariant that actually holds of a patched layer
descriptor: an `InputLayer` descriptor with an object config does not carry
`batch_shape` unless it also carries `batch_input_shape`. -/
def layerRenamed (L : Json) : Bool :=
  match L with
  | .obj kvs =>
    match lookupD kvs "class_name" .null with
    | .str cn =>
      if cn = "InputLayer" then
        match getKey? kvs "config" with
        | some (.obj c) => !hasEntry c "batch_shape" || hasEntry c "batch_input_shape"
        | _ => true
      else true
    | _ => true
  | _ => true

def layersInvariant (d : Json) : Bool :=
  (layersOf d).all layerRenamed

/-- The claim's stricter per-layer invariant, taken from the spec's words: an
`InputLayer` descriptor has no key literally named `batch_shape` at all. -/
def layerNoBatchShape (L : Json) : Bool :=
  match L with
  | .obj kvs =>
    match lookupD kvs "class_name" .null with
    | .str cn =>
      if cn = "InputLayer" then
        match getKey? kvs "config" with
        | some (.obj c) => !hasEntry c "batch_shape"
        | _ => true
      else true
    | _ => true
  | _ => true

/-- The `name` string of a weight descriptor, when present and a string. -/
def nameOf (w : Json) : Option String :=
  match w with
  | .obj kvs =>
    match getKey? kvs "name" with
    | some (.str s) => some s
    | _ => none
  | _ => none

/-- The weight-name strings of one manifest group. -/
def groupNames (m : Json) : List String :=
  match m with
  | .obj kvs =>
    match getKey? kvs "weights" with
    | some (.arr xs) => xs.filterMap nameOf
    | _ => []
  | _ => []

/-- All weight-name strings reachable under `weightsManifest`. -/
def weightNames (d : Json) : List String :=
  match d with
  | .obj top =>
    match getKey? top "weightsManifest" with
    | some (.arr gs) => (gs.map groupNames).flatten
    | _ => []
  | _ => []

/-- One application of the prefix strip to a single name. -/
def stripOnce (s : String) : String :=
  if pyStartsWith s "sequential/" then pyDrop s "sequential/".length else s

/-- The claim's whole-document invariant, taken from the spec's words: no
`InputLayer` carries `batch_shape`, and no weight name starts with the
literal text `sequential/`. -/
def strictInvariant (d : Json) : Bool :=
  (layersOf d).all layerNoBatchShape &&
    (weightNames d).all (fun s => !pyStartsWith s "sequential/")

/-- True when the layer path breaks off at a *missing* key (every value met
before the break being an object), the situation the script tolerates by
substituting defaults. -/
def layersPathAbsent (d : Json) : Bool :=
  match d with
  | .obj top =>
    match getKey? top "modelTopology" with
    | none => true
    | some (.obj m1) =>
      match getKey? m1 "model_config" with
      | none => true
      | some (.obj m2) =>
        match getKey? m2 "config" with
        | none => true
        | some (.obj m3) => !hasEntry m3 "layers"
        | some _ => false
      | some _ => false
    | some _ => false
  | _ => false

def topHasKey (d : Json) (k : String) : Bool :=
  match d with
  | .obj top => hasEntry top k
  | _ => false

/-! ### Erasure of the two targeted regions, for the frame property

`scrubDoc` replaces the layers value (the region holding the layer
descriptors) and every weight `name` value with `null`.  Two documents with
the same scrubbing agree on every key and value outside the two regions the
patcher targets. -/

def scrubName (w : Json) : Json :=
  match w with
  | .obj kvs => .obj (updateKey kvs "name" (fun _ => .null))
  | other => other

def scrubGroup (m : Json) : Json :=
  match m with
  | .obj kvs =>
    .obj (updateKey kvs "weights" (fun ws =>
      match ws with
      | .arr xs => .arr (xs.map scrubName)
      | other => other))
  | other => other

def scrubCfF (cf : Json) : Json :=
  match cf with
  | .obj m3 => .obj (updateKey m3 "layers" (fun _ => .null))
  | other => other

def scrubMcF (mc : Json) : Json :=
  match mc with
  | .obj m2 => .obj (updateKey m2 "config" scrubCfF)
  | other => other

def scrubMtF (mt : Json) : Json :=
  match mt with
  | .obj m1 => .obj (updateKey m1 "model_config" scrubMcF)
  | other => other

def scrubWmF (wm : Json) : Json :=
  match wm with
  | .arr gs => .arr (gs.map scrubGroup)
  | other => other

def scrubDoc (d : Json) : Json :=
  match d with
  | .obj top =>
    .obj (updateKey (updateKey top "modelTopology" scrubMtF) "weightsManifest" scrubWmF)
  | other => other

/-! ### The script around the transformation (lines 4-5 and 27)

The script reads `model/model.json`, parses it, transforms the parsed value,
and only then rewrites the file.  The file system and the JSON
parser/serializer live outside this repository, so they enter as parameters:
`file` is the current file content (`none` when the file is missing),
`parseDoc` returns `none` on text that is not valid JSON, and `dumpDoc`
serializes.  A missing file or a parse failure raises before any write. -/

inductive ScriptError where
  | malformedInput
  | patchError (e : PyError)
deriving DecidableEq

def runPatcher (parseDoc : String → Option Json) (dumpDoc : Json → String)
    (file : Option String) : Except ScriptError String × Option String :=
  match file with
  | none => (.error .malformedInput, none)
  | some s =>
    match parseDoc s with
    | none => (.error .malformedInput, some s)
    | some j =>
      match patch j with
      | .error e => (.error (.patchError e), some s)
      | .ok j2 => (.ok (dumpDoc j2), some (dumpDoc j2))

/-! ### The training pipeline (`train_cifar10.py`)

The script is a fixed linear sequence of stages, each wrapped in
`try/except`.  Whether a stage's body raises is decided by the external ML
library, so it enters as a boolean oracle.  The handlers for the import,
data-loading, model-building, training and tfjs-export stages call
`exit(1)`; the handlers for evaluation and for saving the native checkpoint
only print and fall through. -/

inductive Stage where
  | setup
  | loadData
  | build
  | train
  | evalStage
  | saveNative
  | exportBundle
  | finish
deriving DecidableEq

structure StageOutcomes where
  importsOk : Bool
  dataOk : Bool
  buildOk : Bool
  trainOk : Bool
  evalOk : Bool
  saveOk : Bool
  exportOk : Bool

/-- The stages the script enters, and the process exit code (`exit(1)` in a
fatal handler, implicit `0` at the end of the file).  `evalOk` and `saveOk`
do not influence the result: those two handlers are non-fatal. -/
def runPipeline (o : StageOutcomes) : List Stage × Nat :=
  if !o.importsOk then ([.setup], 1)
  else if !o.dataOk then ([.setup, .loadData], 1)
  else if !o.buildOk then ([.setup, .loadData, .build], 1)
  else if !o.trainOk then ([.setup, .loadData, .build, .train], 1)
  else if !o.exportOk then
    ([.setup, .loadData, .build, .train, .evalStage, .saveNative, .exportBundle], 1)
  else
    ([.setup, .loadData, .build, .train, .evalStage, .saveNative, .exportBundle, .finish], 0)

/-! ### Association-list lemmas -/

theorem getKey?_setKey_self (kvs : List (String × Json)) (k : String) (v : Json) :
    getKey? (setKey kvs k v) k = some v := by
  induction kvs with
  | nil => simp [setKey, getKey?]
  | cons p rest ih =>
    obtain ⟨k', w⟩ := p
    by_cases h : k' = k
    · simp [setKey, getKey?, h]
    · simp [setKey, getKey?, h, ih]

theorem getKey?_setKey_ne (kvs : List (String × Json)) (k k' : String) (v : Json)
    (h : k' ≠ k) : getKey? (setKey kvs k v) k' = getKey? kvs k' := by
  induction kvs with
  | nil => simp [setKey, getKey?, Ne.symm h]
  | cons p rest ih =>
    obtain ⟨a, w⟩ := p
    by_cases ha : a = k
    · subst ha
      simp [setKey, getKey?, Ne.symm h]
    · simp [setKey, getKey?, ha, ih]

theorem getKey?_updateKey_self (kvs : List (String × Json)) (k : String)
    (f : Json → Json) : getKey? (updateKey kvs k f) k = (getKey? kvs k).map f := by
  induction kvs with
  | nil => simp [updateKey, getKey?]
  | cons p rest ih =>
    obtain ⟨a, w⟩ := p
    by_cases ha : a = k
    · simp [updateKey, getKey?, ha]
    · simp [updateKey, getKey?, ha, ih]

theorem getKey?_updateKey_ne (kvs : List (String × Json)) (k k' : String)
    (f : Json → Json) (h : k' ≠ k) :
    getKey? (updateKey kvs k f) k' = getKey? kvs k' := by
  induction kvs with
  | nil => simp [updateKey]
  | cons p rest ih =>
    obtain ⟨a, w⟩ := p
    by_cases ha : a = k
    · subst ha
      simp [updateKey, getKey?, Ne.symm h]
    · simp [updateKey, getKey?, ha, ih]

theorem updateKey_absent (kvs : List (String × Json)) (k : String) (f : Json → Json)
    (h : getKey? kvs k = none) : updateKey kvs k f = kvs := by
  induction kvs with
  | nil => simp [updateKey]
  | cons p rest ih =>
    obtain ⟨a, w⟩ := p
    by_cases ha : a = k
    · simp [getKey?, ha] at h
    · simp [getKey?, ha] at h
      simp [updateKey, ha, ih h]

theorem updateKey_congr_first (kvs : List (String × Json)) (k : String) (v : Json)
    (f g : Json → Json) (hv : getKey? kvs k = some v) (hfg : f v = g v) :
    updateKey kvs k f = updateKey kvs k g := by
  induction kvs with
  | nil => simp [getKey?] at hv
  | cons p rest ih =>
    obtain ⟨a, w⟩ := p
    by_cases ha : a = k
    · simp [getKey?, ha] at hv
      subst hv
      simp [updateKey, ha, hfg]
    · simp [getKey?, ha] at hv
      simp [updateKey, ha, ih hv]

theorem updateKey_id_first (kvs : List (String × Json)) (k : String) (v : Json)
    (f : Json → Json) (hv : getKey? kvs k = some v) (hf : f v = v) :
    updateKey kvs k f = kvs := by
  induction kvs with
  | nil => simp [getKey?] at hv
  | cons p rest ih =>
    obtain ⟨a, w⟩ := p
    by_cases ha : a = k
    · simp [getKey?, ha] at hv
      subst hv
      simp [updateKey, ha, hf]
    · simp [getKey?, ha] at hv
      simp [updateKey, ha, ih hv]

theorem updateKey_updateKey (kvs : List (String × Json)) (k : String)
    (f g : Json → Json) :
    updateKey (updateKey kvs k f) k g = updateKey kvs k (fun v => g (f v)) := by
  induction kvs with
  | nil => simp [updateKey]
  | cons p rest ih =>
    obtain ⟨a, w⟩ := p
    by_cases ha : a = k
    · simp [updateKey, ha]
    · simp [updateKey, ha, ih]

theorem updateKey_ext (kvs : List (String × Json)) (k : String) (f g : Json → Json)
    (h : ∀ v, f v = g v) : updateKey kvs k f = updateKey kvs k g := by
  induction kvs with
  | nil => simp [updateKey]
  | cons p rest ih =>
    obtain ⟨a, w⟩ := p
    by_cases ha : a = k
    · simp [updateKey, ha, h]
    · simp [updateKey, ha, ih]

theorem updateKey_comm (kvs : List (String × Json)) (k k' : String)
    (f g : Json → Json) (h : k ≠ k') :
    updateKey (updateKey kvs k f) k' g = updateKey (updateKey kvs k' g) k f := by
  induction kvs with
  | nil => simp [updateKey]
  | cons p rest ih =>
    obtain ⟨a, w⟩ := p
    by_cases hak : a = k
    · subst hak
      simp [updateKey, h, Ne.symm h, ih]
    · by_cases hak' : a = k'
      · subst hak'
        simp [updateKey, hak, Ne.symm h, ih]
      · simp [updateKey, hak, hak', ih]

theorem updateKey_setKey (kvs : List (String × Json)) (k : String) (v : Json)
    (f : Json → Json) : updateKey (setKey kvs k v) k f = setKey kvs k (f v) := by
  induction kvs with
  | nil => simp [setKey, updateKey]
  | cons p rest ih =>
    obtain ⟨a, w⟩ := p
    by_cases ha : a = k
    · simp [setKey, updateKey, ha]
    · simp [setKey, updateKey, ha, ih]

theorem updateKey_eq_setKey (kvs : List (String × Json)) (k : String) (v : Json)
    (f : Json → Json) (hv : getKey? kvs k = some v) :
    updateKey kvs k f = setKey kvs k (f v) := by
  induction kvs with
  | nil => simp [getKey?] at hv
  | cons p rest ih =>
    obtain ⟨a, w⟩ := p
    by_cases ha : a = k
    · simp [getKey?, ha] at hv
      subst hv
      simp [updateKey, setKey, ha]
    · simp [getKey?, ha] at hv
      simp [updateKey, setKey, ha, ih hv]

theorem setKey_setKey (kvs : List (String × Json)) (k : String) (v w : Json) :
    setKey (setKey kvs k v) k w = setKey kvs k w := by
  induction kvs with
  | nil => simp [setKey]
  | cons p rest ih =>
    obtain ⟨a, u⟩ := p
    by_cases ha : a = k
    · simp [setKey, ha]
    · simp [setKey, ha, ih]

theorem getKey?_removeKey_self (kvs : List (String × Json)) (k : String) :
    getKey? (removeKey kvs k) k = none := by
  induction kvs with
  | nil => simp [removeKey, getKey?]
  | cons p rest ih =>
    obtain ⟨a, w⟩ := p
    by_cases ha : a = k
    · simpa [removeKey, List.filter_cons, ha] using ih
    · have hstep : removeKey ((a, w) :: rest) k = (a, w) :: removeKey rest k := by
        simp [removeKey, List.filter_cons, ha]
      rw [hstep]
      simp [getKey?, ha, ih]

theorem lookupD_setKey_self (kvs : List (String × Json)) (k : String) (v d : Json) :
    lookupD (setKey kvs k v) k d = v := by
  simp [lookupD, getKey?_setKey_self]

theorem lookupD_setKey_ne (kvs : List (String × Json)) (k k' : String) (v d : Json)
    (h : k' ≠ k) : lookupD (setKey kvs k v) k' d = lookupD kvs k' d := by
  simp [lookupD, getKey?_setKey_ne _ _ _ _ h]

/-! ### Lemmas about `mapME` -/

theorem mapME_ok_of_all (f : Json → Except PyError Json) (xs : List Json)
    (h : ∀ x ∈ xs, f x = .ok x) : mapME f xs = .ok xs := by
  induction xs with
  | nil => rfl
  | cons x xs ih =>
    have hx := h x (by simp)
    have hxs := ih (fun y hy => h y (by simp [hy]))
    simp [mapME, hx, hxs]

theorem mapME_mem_ok (f : Json → Except PyError Json) (xs ys : List Json)
    (h : mapME f xs = .ok ys) : ∀ y ∈ ys, ∃ x ∈ xs, f x = .ok y := by
  induction xs generalizing ys with
  | nil =>
    simp [mapME] at h
    subst h
    simp
  | cons x xs ih =>
    simp only [mapME] at h
    cases hx : f x with
    | error e => rw [hx] at h; exact absurd h (by simp)
    | ok y0 =>
      rw [hx] at h
      cases hxs : mapME f xs with
      | error e => rw [hxs] at h; exact absurd h (by simp)
      | ok ys0 =>
        rw [hxs] at h
        simp only [Except.ok.injEq] at h
        subst h
        intro y hy
        rcases List.mem_cons.mp hy with hy | hy
        · exact ⟨x, by simp, hy ▸ hx⟩
        · rcases ih ys0 hxs y hy with ⟨x', hx', hfx'⟩
          exact ⟨x', by simp [hx'], hfx'⟩

theorem mapME_map_eq {α : Type} (f : Json → Except PyError Json)
    (g₁ g₂ : Json → α) (xs ys : List Json) (h : mapME f xs = .ok ys)
    (hg : ∀ x y, f x = .ok y → g₁ y = g₂ x) : ys.map g₁ = xs.map g₂ := by
  induction xs generalizing ys with
  | nil =>
    simp [mapME] at h
    subst h
    rfl
  | cons x xs ih =>
    simp only [mapME] at h
    cases hx : f x with
    | error e => rw [hx] at h; exact absurd h (by simp)
    | ok y0 =>
      rw [hx] at h
      cases hxs : mapME f xs with
      | error e => rw [hxs] at h; exact absurd h (by simp)
      | ok ys0 =>
        rw [hxs] at h
        simp only [Except.ok.injEq] at h
        subst h
        simp [List.map_cons, hg x y0 hx, ih ys0 hxs]

theorem mapME_filterMap (f : Json → Except PyError Json)
    (n : Json → Option String) (g : String → String) (xs ys : List Json)
    (h : mapME f xs = .ok ys)
    (hn : ∀ x y, f x = .ok y → n y = (n x).map g) :
    ys.filterMap n = (xs.filterMap n).map g := by
  induction xs generalizing ys with
  | nil =>
    simp [mapME] at h
    subst h
    rfl
  | cons x xs ih =>
    simp only [mapME] at h
    cases hx : f x with
    | error e => rw [hx] at h; exact absurd h (by simp)
    | ok y0 =>
      rw [hx] at h
      cases hxs : mapME f xs with
      | error e => rw [hxs] at h; exact absurd h (by simp)
      | ok ys0 =>
        rw [hxs] at h
        simp only [Except.ok.injEq] at h
        subst h
        have hrec := ih ys0 hxs
        have hxy := hn x y0 hx
        cases hnx : n x with
        | none =>
          rw [hnx] at hxy
          simp only [Option.map_none'] at hxy
          simp [List.filterMap_cons, hnx, hxy, hrec]
        | some s =>
          rw [hnx] at hxy
          simp only [Option.map_some'] at hxy
          simp [List.filterMap_cons, hnx, hxy, hrec]

/-! ### String facts for the prefix strip -/

theorem pyStartsWith_append (t : String) :
    pyStartsWith ("sequential/" ++ t) "sequential/" = true := by
  simp only [pyStartsWith, String.data_append]
  exact (List.isPrefixOf_iff_prefix).mpr (List.prefix_append _ _)

theorem pyDrop_append (t : String) :
    pyDrop ("sequential/" ++ t) "sequential/".length = t := by
  obtain ⟨l⟩ := t
  simp only [pyDrop, String.data_append]
  have hlen : "sequential/".length = "sequential/".data.length := rfl
  rw [hlen, List.drop_left]

theorem stripOnce_append (t : String) : stripOnce ("sequential/" ++ t) = t := by
  simp [stripOnce, pyStartsWith_append, pyDrop_append]

/-! ### Behaviour of `patchWeight` on one weight descriptor -/

theorem patchWeight_ok_cases (w w' : Json) (h : patchWeight w = .ok w') :
    ∃ kvs s, w = .obj kvs ∧ lookupD kvs "name" (.str "") = .str s ∧
      ((pyStartsWith s "sequential/" = true ∧
        w' = .obj (setKey kvs "name" (.str (pyDrop s "sequential/".length)))) ∨
       (pyStartsWith s "sequential/" = false ∧ w' = .obj kvs)) := by
  cases w with
  | obj kvs =>
    simp only [patchWeight] at h
    split at h
    · rename_i s hn
      split at h
      · rename_i hsw
        simp only [Except.ok.injEq] at h
        exact ⟨kvs, s, rfl, hn, Or.inl ⟨hsw, h.symm⟩⟩
      · rename_i hsw
        simp only [Except.ok.injEq] at h
        exact ⟨kvs, s, rfl, hn, Or.inr ⟨Bool.eq_false_iff.mpr hsw, h.symm⟩⟩
    · exact absurd h (by simp)
  | null => exact absurd h (by simp [patchWeight])
  | bool b => exact absurd h (by simp [patchWeight])
  | num l => exact absurd h (by simp [patchWeight])
  | str s => exact absurd h (by simp [patchWeight])
  | arr xs => exact absurd h (by simp [patchWeight])

theorem pyStartsWith_empty : pyStartsWith "" "sequential/" = false := rfl

theorem patchWeight_nameOf (w w' : Json) (h : patchWeight w = .ok w') :
    nameOf w' = (nameOf w).map stripOnce := by
  rcases patchWeight_ok_cases w w' h with ⟨kvs, s, rfl, hn, hcase⟩
  rcases hcase with ⟨hsw, rfl⟩ | ⟨hsw, rfl⟩
  · cases hg : getKey? kvs "name" with
    | none =>
      rw [lookupD, hg] at hn
      simp only [Option.getD_none] at hn
      have hs : s = "" := by injection hn.symm
      rw [hs, pyStartsWith_empty] at hsw
      exact absurd hsw (by simp)
    | some v =>
      rw [lookupD, hg] at hn
      simp only [Option.getD_some] at hn
      subst hn
      simp [nameOf, getKey?_setKey_self, hg, stripOnce, hsw]
  · cases hg : getKey? kvs "name" with
    | none => simp [nameOf, hg]
    | some v =>
      rw [lookupD, hg] at hn
      simp only [Option.getD_some] at hn
      subst hn
      simp [nameOf, hg, stripOnce, hsw]

theorem patchWeight_scrub (w w' : Json) (h : patchWeight w = .ok w') :
    scrubName w' = scrubName w := by
  rcases patchWeight_ok_cases w w' h with ⟨kvs, s, rfl, hn, hcase⟩
  rcases hcase with ⟨hsw, rfl⟩ | ⟨hsw, rfl⟩
  · cases hg : getKey? kvs "name" with
    | none =>
      rw [lookupD, hg] at hn
      simp only [Option.getD_none] at hn
      have hs : s = "" := by injection hn.symm
      rw [hs, pyStartsWith_empty] at hsw
      exact absurd hsw (by simp)
    | some v =>
      rw [lookupD, hg] at hn
      simp only [Option.getD_some] at hn
      subst hn
      simp only [scrubName, updateKey_setKey]
      rw [updateKey_eq_setKey kvs "name" (.str s) _ hg]
  · rfl

theorem patchWeight_idem (w w' : Json) (h : patchWeight w = .ok w')
    (hname : ∀ s, nameOf w' = some s → pyStartsWith s "sequential/" = false) :
    patchWeight w' = .ok w' := by
  rcases patchWeight_ok_cases w w' h with ⟨kvs, s, rfl, hn, hcase⟩
  rcases hcase with ⟨hsw, rfl⟩ | ⟨hsw, rfl⟩
  · have hval : nameOf (Json.obj (setKey kvs "name" (.str (pyDrop s "sequential/".length)))) =
        some (pyDrop s "sequential/".length) := by
      simp [nameOf, getKey?_setKey_self]
    have hsw2 := hname _ hval
    simp [patchWeight, lookupD_setKey_self, hsw2]
  · exact h

/-! ### Behaviour of `patchLayer` on one layer descriptor -/

theorem patchLayer_ok_cases (L L' : Json) (h : patchLayer L = .ok L') :
    ∃ kvs, L = .obj kvs ∧
      ((L' = .obj kvs ∧
         (lookupD kvs "class_name" .null ≠ .str "InputLayer" ∨
          pyContains "batch_shape" (lookupD kvs "config" (.obj [])) = .ok false ∨
          (pyContains "batch_shape" (lookupD kvs "config" (.obj [])) = .ok true ∧
           pyContains "batch_input_shape" (lookupD kvs "config" (.obj [])) = .ok true))) ∨
       (∃ c, lookupD kvs "class_name" .null = .str "InputLayer" ∧
          lookupD kvs "config" (.obj []) = .obj c ∧
          hasEntry c "batch_shape" = true ∧ hasEntry c "batch_input_shape" = false ∧
          L' = .obj (setKey kvs "config"
            (.obj (setKey (removeKey c "batch_shape") "batch_input_shape"
              (lookupD c "batch_shape" .null)))))) := by
  cases L with
  | obj kvs =>
    simp only [patchLayer] at h
    split at h
    · rename_i cn hcn
      split at h
      · rename_i hIL
        subst hIL
        split at h
        · exact absurd h (by simp)
        · rename_i hbs
          simp only [Except.ok.injEq] at h
          exact ⟨kvs, rfl, Or.inl ⟨h.symm, Or.inr (Or.inl hbs)⟩⟩
        · rename_i hbs
          split at h
          · exact absurd h (by simp)
          · rename_i hbis
            simp only [Except.ok.injEq] at h
            exact ⟨kvs, rfl, Or.inl ⟨h.symm, Or.inr (Or.inr ⟨hbs, hbis⟩)⟩⟩
          · rename_i hbis
            split at h
            · rename_i c hcfg
              simp only [Except.ok.injEq] at h
              rw [hcfg] at hbs hbis
              simp only [pyContains, Except.ok.injEq] at hbs hbis
              exact ⟨kvs, rfl, Or.inr ⟨c, hcn, hcfg, hbs, hbis, h.symm⟩⟩
            · exact absurd h (by simp)
            · exact absurd h (by simp)
      · rename_i hIL
        simp only [Except.ok.injEq] at h
        refine ⟨kvs, rfl, Or.inl ⟨h.symm, Or.inl ?_⟩⟩
        rw [hcn]
        intro hc
        exact hIL (by injection hc)
    · rename_i hnostr
      simp only [Except.ok.injEq] at h
      refine ⟨kvs, rfl, Or.inl ⟨h.symm, Or.inl ?_⟩⟩
      intro hc
      exact hnostr "InputLayer" hc
  | null => exact absurd h (by simp [patchLayer])
  | bool b => exact absurd h (by simp [patchLayer])
  | num l => exact absurd h (by simp [patchLayer])
  | str s => exact absurd h (by simp [patchLayer])
  | arr xs => exact absurd h (by simp [patchLayer])

theorem patchLayer_renamed (L L' : Json) (h : patchLayer L = .ok L') :
    layerRenamed L' = true := by
  rcases patchLayer_ok_cases L L' h with ⟨kvs, rfl, hcase⟩
  rcases hcase with ⟨rfl, hdisj⟩ | ⟨c, hcn, hcfg, hbs, hbis, rfl⟩
  · cases hcn : lookupD kvs "class_name" Json.null with
    | str cn =>
      by_cases hIL : cn = "InputLayer"
      · subst hIL
        rcases hdisj with hne | hbs | ⟨hbs, hbis⟩
        · exact absurd hcn hne
        · cases hg : getKey? kvs "config" with
          | none => simp [layerRenamed, hcn, hg]
          | some v =>
            cases v with
            | obj c =>
              rw [lookupD, hg] at hbs
              simp only [Option.getD_some, pyContains, Except.ok.injEq] at hbs
              simp [layerRenamed, hcn, hg, hbs]
            | null => simp [layerRenamed, hcn, hg]
            | bool b => simp [layerRenamed, hcn, hg]
            | num l => simp [layerRenamed, hcn, hg]
            | str s => simp [layerRenamed, hcn, hg]
            | arr xs => simp [layerRenamed, hcn, hg]
        · cases hg : getKey? kvs "config" with
          | none => simp [layerRenamed, hcn, hg]
          | some v =>
            cases v with
            | obj c =>
              rw [lookupD, hg] at hbis
              simp only [Option.getD_some, pyContains, Except.ok.injEq] at hbis
              simp [layerRenamed, hcn, hg, hbis]
            | null => simp [layerRenamed, hcn, hg]
            | bool b => simp [layerRenamed, hcn, hg]
            | num l => simp [layerRenamed, hcn, hg]
            | str s => simp [layerRenamed, hcn, hg]
            | arr xs => simp [layerRenamed, hcn, hg]
      · simp [layerRenamed, hcn, hIL]
    | null => simp [layerRenamed, hcn]
    | bool b => simp [layerRenamed, hcn]
    | num l => simp [layerRenamed, hcn]
    | arr xs => simp [layerRenamed, hcn]
    | obj o => simp [layerRenamed, hcn]
  · have hcls : lookupD (setKey kvs "config"
        (Json.obj (setKey (removeKey c "batch_shape") "batch_input_shape"
          (lookupD c "batch_shape" Json.null)))) "class_name" Json.null
        = Json.str "InputLayer" := by
      rw [lookupD_setKey_ne _ _ _ _ _ (by decide)]
      exact hcn
    have hg : getKey? (setKey kvs "config"
        (Json.obj (setKey (removeKey c "batch_shape") "batch_input_shape"
          (lookupD c "batch_shape" Json.null)))) "config"
        = some (Json.obj (setKey (removeKey c "batch_shape") "batch_input_shape"
          (lookupD c "batch_shape" Json.null))) := getKey?_setKey_self _ _ _
    have hbis2 : hasEntry (setKey (removeKey c "batch_shape") "batch_input_shape"
        (lookupD c "batch_shape" Json.null)) "batch_input_shape" = true := by
      simp [hasEntry, getKey?_setKey_self]
    simp [layerRenamed, hcls, hg, hbis2]

theorem patchLayer_idem (L L' : Json) (h : patchLayer L = .ok L') :
    patchLayer L' = .ok L' := by
  rcases patchLayer_ok_cases L L' h with ⟨kvs, rfl, hcase⟩
  rcases hcase with ⟨rfl, hdisj⟩ | ⟨c, hcn, hcfg, hbs, hbis, rfl⟩
  · exact h
  · have hcls : lookupD (setKey kvs "config"
        (Json.obj (setKey (removeKey c "batch_shape") "batch_input_shape"
          (lookupD c "batch_shape" Json.null)))) "class_name" Json.null
        = Json.str "InputLayer" := by
      rw [lookupD_setKey_ne _ _ _ _ _ (by decide)]
      exact hcn
    have hcfg2 : lookupD (setKey kvs "config"
        (Json.obj (setKey (removeKey c "batch_shape") "batch_input_shape"
          (lookupD c "batch_shape" Json.null)))) "config" (Json.obj [])
        = Json.obj (setKey (removeKey c "batch_shape") "batch_input_shape"
          (lookupD c "batch_shape" Json.null)) := lookupD_setKey_self _ _ _ _
    have hbis2 : hasEntry (setKey (removeKey c "batch_shape") "batch_input_shape"
        (lookupD c "batch_shape" Json.null)) "batch_input_shape" = true := by
      simp [hasEntry, getKey?_setKey_self]
    cases hbs2 : hasEntry (setKey (removeKey c "batch_shape") "batch_input_shape"
        (lookupD c "batch_shape" Json.null)) "batch_shape" with
    | false => simp [patchLayer, hcls, hcfg2, pyContains, hbs2]
    | true => simp [patchLayer, hcls, hcfg2, pyContains, hbs2, hbis2]

/-! ### Behaviour of `patchGroup` on one manifest group -/

theorem patchGroup_ok_cases (m m' : Json) (h : patchGroup m = .ok m') :
    ∃ kvs, m = .obj kvs ∧
      ((m' = .obj kvs ∧ (∀ xs, getKey? kvs "weights" ≠ some (.arr xs))) ∨
       (∃ xs ys, getKey? kvs "weights" = some (.arr xs) ∧ mapME patchWeight xs = .ok ys ∧
          m' = .obj (setKey kvs "weights" (.arr ys)))) := by
  cases m with
  | obj kvs =>
    simp only [patchGroup] at h
    split at h
    · rename_i hg
      simp only [Except.ok.injEq] at h
      exact ⟨kvs, rfl, Or.inl ⟨h.symm, by simp [hg]⟩⟩
    · rename_i ws hg
      split at h
      · exact absurd h (by simp)
      · rename_i elems hiter
        split at h
        · exact absurd h (by simp)
        · rename_i elems2 hmap
          split at h
          · rename_i xs0 hws
            simp only [iterElems, Except.ok.injEq] at hiter
            subst hiter
            simp only [Except.ok.injEq] at h
            exact ⟨kvs, rfl, Or.inr ⟨hws, elems2, hg, hmap, h.symm⟩⟩
          · rename_i hnoarr
            simp only [Except.ok.injEq] at h
            refine ⟨kvs, rfl, Or.inl ⟨h.symm, ?_⟩⟩
            intro xs heq
            rw [hg] at heq
            simp only [Option.some.injEq] at heq
            exact hnoarr xs heq
  | null => exact absurd h (by simp [patchGroup])
  | bool b => exact absurd h (by simp [patchGroup])
  | num l => exact absurd h (by simp [patchGroup])
  | str s => exact absurd h (by simp [patchGroup])
  | arr xs => exact absurd h (by simp [patchGroup])

theorem patchGroup_names (m m' : Json) (h : patchGroup m = .ok m') :
    groupNames m' = (groupNames m).map stripOnce := by
  rcases patchGroup_ok_cases m m' h with ⟨kvs, rfl, hcase⟩
  rcases hcase with ⟨rfl, hnoarr⟩ | ⟨xs, ys, hg, hmap, rfl⟩
  · cases hg : getKey? kvs "weights" with
    | none => simp [groupNames, hg]
    | some ws =>
      cases ws with
      | arr xs => exact absurd hg (hnoarr xs)
      | null => simp [groupNames, hg]
      | bool b => simp [groupNames, hg]
      | num l => simp [groupNames, hg]
      | str s => simp [groupNames, hg]
      | obj o => simp [groupNames, hg]
  · have hnames := mapME_filterMap patchWeight nameOf stripOnce xs ys hmap
      (fun x y hxy => patchWeight_nameOf x y hxy)
    simp [groupNames, getKey?_setKey_self, hg, hnames]

theorem patchGroup_scrub (m m' : Json) (h : patchGroup m = .ok m') :
    scrubGroup m' = scrubGroup m := by
  rcases patchGroup_ok_cases m m' h with ⟨kvs, rfl, hcase⟩
  rcases hcase with ⟨rfl, hnoarr⟩ | ⟨xs, ys, hg, hmap, rfl⟩
  · rfl
  · have hmaps : ys.map scrubName = xs.map scrubName :=
      mapME_map_eq patchWeight scrubName scrubName xs ys hmap
        (fun x y hxy => patchWeight_scrub x y hxy)
    simp only [scrubGroup, updateKey_setKey]
    rw [updateKey_eq_setKey kvs "weights" (.arr xs) _ hg]
    simp [hmaps]

theorem patchGroup_idem (m m' : Json) (h : patchGroup m = .ok m')
    (hnames : ∀ s ∈ groupNames m', pyStartsWith s "sequential/" = false) :
    patchGroup m' = .ok m' := by
  rcases patchGroup_ok_cases m m' h with ⟨kvs, rfl, hcase⟩
  rcases hcase with ⟨rfl, hnoarr⟩ | ⟨xs, ys, hg, hmap, rfl⟩
  · exact h
  · have hgn : groupNames (Json.obj (setKey kvs "weights" (.arr ys)))
        = ys.filterMap nameOf := by
      simp [groupNames, getKey?_setKey_self]
    have hall : ∀ y ∈ ys, patchWeight y = .ok y := by
      intro y hy
      rcases mapME_mem_ok patchWeight xs ys hmap y hy with ⟨x, _, hxy⟩
      refine patchWeight_idem x y hxy ?_
      intro s hs
      refine hnames s ?_
      rw [hgn]
      exact List.mem_filterMap.mpr ⟨y, hy, hs⟩
    have hmap2 : mapME patchWeight ys = .ok ys := mapME_ok_of_all _ _ hall
    simp [patchGroup, getKey?_setKey_self, iterElems, hmap2, setKey_setKey]

/-! ### The layers path: lookup, write-back and `patch1` -/

theorem getLayers_of_layersVal (top : List (String × Json)) (v : Json)
    (h : layersVal (.obj top) = some v) : getLayers top = .ok v := by
  simp only [layersVal] at h
  split at h
  · rename_i m1 hmt
    split at h
    · rename_i m2 hmc
      split at h
      · rename_i m3 hcf
        simp [getLayers, lookupD, hmt, hmc, hcf, h]
      · exact absurd h (by simp)
    · exact absurd h (by simp)
  · exact absurd h (by simp)

theorem getLayers_ok_cases (top : List (String × Json)) (ls : Json)
    (h : getLayers top = .ok ls) :
    layersVal (.obj top) = some ls ∨ (ls = .arr [] ∧ layersVal (.obj top) = none) := by
  cases hg1 : getKey? top "modelTopology" with
  | none =>
    have hgl : getLayers top = .ok (.arr []) := by
      simp [getLayers, lookupD, hg1, getKey?]
    rw [hgl] at h
    simp only [Except.ok.injEq] at h
    exact Or.inr ⟨h.symm, by simp [layersVal, hg1]⟩
  | some v1 =>
    cases v1 with
    | obj m1 =>
      cases hg2 : getKey? m1 "model_config" with
      | none =>
        have hgl : getLayers top = .ok (.arr []) := by
          simp [getLayers, lookupD, hg1, hg2, getKey?]
        rw [hgl] at h
        simp only [Except.ok.injEq] at h
        exact Or.inr ⟨h.symm, by simp [layersVal, hg1, hg2]⟩
      | some v2 =>
        cases v2 with
        | obj m2 =>
          cases hg3 : getKey? m2 "config" with
          | none =>
            have hgl : getLayers top = .ok (.arr []) := by
              simp [getLayers, lookupD, hg1, hg2, hg3, getKey?]
            rw [hgl] at h
            simp only [Except.ok.injEq] at h
            exact Or.inr ⟨h.symm, by simp [layersVal, hg1, hg2, hg3]⟩
          | some v3 =>
            cases v3 with
            | obj m3 =>
              cases hg4 : getKey? m3 "layers" with
              | none =>
                have hgl : getLayers top = .ok (.arr []) := by
                  simp [getLayers, lookupD, hg1, hg2, hg3, hg4]
                rw [hgl] at h
                simp only [Except.ok.injEq] at h
                exact Or.inr ⟨h.symm, by simp [layersVal, hg1, hg2, hg3, hg4]⟩
              | some w =>
                have hgl : getLayers top = .ok w := by
                  simp [getLayers, lookupD, hg1, hg2, hg3, hg4]
                rw [hgl] at h
                simp only [Except.ok.injEq] at h
                exact Or.inl (by simp [layersVal, hg1, hg2, hg3, hg4, h])
            | null => simp [getLayers, lookupD, hg1, hg2, hg3] at h
            | bool b => simp [getLayers, lookupD, hg1, hg2, hg3] at h
            | num l => simp [getLayers, lookupD, hg1, hg2, hg3] at h
            | str s => simp [getLayers, lookupD, hg1, hg2, hg3] at h
            | arr xs => simp [getLayers, lookupD, hg1, hg2, hg3] at h
        | null => simp [getLayers, lookupD, hg1, hg2] at h
        | bool b => simp [getLayers, lookupD, hg1, hg2] at h
        | num l => simp [getLayers, lookupD, hg1, hg2] at h
        | str s => simp [getLayers, lookupD, hg1, hg2] at h
        | arr xs => simp [getLayers, lookupD, hg1, hg2] at h
    | null => simp [getLayers, lookupD, hg1] at h
    | bool b => simp [getLayers, lookupD, hg1] at h
    | num l => simp [getLayers, lookupD, hg1] at h
    | str s => simp [getLayers, lookupD, hg1] at h
    | arr xs => simp [getLayers, lookupD, hg1] at h

theorem setLayers_id_of_not_arr (d : Json) (es : List Json)
    (h : ∀ xs, layersVal d ≠ some (.arr xs)) : setLayers d es = d := by
  cases d with
  | obj top =>
    simp only [setLayers]
    cases hg1 : getKey? top "modelTopology" with
    | none => rw [updateKey_absent _ _ _ hg1]
    | some v1 =>
      refine congrArg Json.obj (updateKey_id_first _ _ _ _ hg1 ?_)
      cases v1 with
      | obj m1 =>
        simp only [setInMt]
        refine congrArg Json.obj ?_
        cases hg2 : getKey? m1 "model_config" with
        | none => exact updateKey_absent _ _ _ hg2
        | some v2 =>
          refine updateKey_id_first _ _ _ _ hg2 ?_
          cases v2 with
          | obj m2 =>
            simp only [setInMc]
            refine congrArg Json.obj ?_
            cases hg3 : getKey? m2 "config" with
            | none => exact updateKey_absent _ _ _ hg3
            | some v3 =>
              refine updateKey_id_first _ _ _ _ hg3 ?_
              cases v3 with
              | obj m3 =>
                simp only [setInCf]
                refine congrArg Json.obj ?_
                cases hg4 : getKey? m3 "layers" with
                | none => exact updateKey_absent _ _ _ hg4
                | some v4 =>
                  refine updateKey_id_first _ _ _ _ hg4 ?_
                  cases v4 with
                  | arr xs =>
                    exact absurd (by simp [layersVal, hg1, hg2, hg3, hg4]) (h xs)
                  | null => rfl
                  | bool b => rfl
                  | num l => rfl
                  | str s => rfl
                  | obj o => rfl
              | null => rfl
              | bool b => rfl
              | num l => rfl
              | str s => rfl
              | arr xs => rfl
          | null => rfl
          | bool b => rfl
          | num l => rfl
          | str s => rfl
          | arr xs => rfl
      | null => rfl
      | bool b => rfl
      | num l => rfl
      | str s => rfl
      | arr xs => rfl
  | null => rfl
  | bool b => rfl
  | num l => rfl
  | str s => rfl
  | arr xs => rfl

theorem setLayers_self (d : Json) (es : List Json)
    (h : layersVal d = some (.arr es)) : setLayers d es = d := by
  cases d with
  | obj top =>
    simp only [layersVal] at h
    split at h
    · rename_i m1 hmt
      split at h
      · rename_i m2 hmc
        split at h
        · rename_i m3 hcf
          have h3 : updateKey m3 "layers" (setInLs es) = m3 :=
            updateKey_id_first _ _ _ _ h rfl
          have h2 : updateKey m2 "config" (setInCf es) = m2 :=
            updateKey_id_first _ _ _ _ hcf (by simp [setInCf, h3])
          have h1 : updateKey m1 "model_config" (setInMc es) = m1 :=
            updateKey_id_first _ _ _ _ hmc (by simp [setInMc, h2])
          have h0 : updateKey top "modelTopology" (setInMt es) = top :=
            updateKey_id_first _ _ _ _ hmt (by simp [setInMt, h1])
          simp [setLayers, h0]
        · exact absurd h (by simp)
      · exact absurd h (by simp)
    · exact absurd h (by simp)
  | null => exact absurd h (by simp [layersVal])
  | bool b => exact absurd h (by simp [layersVal])
  | num l => exact absurd h (by simp [layersVal])
  | str s => exact absurd h (by simp [layersVal])
  | arr xs => exact absurd h (by simp [layersVal])

theorem layersVal_setLayers (d : Json) (xs es : List Json)
    (h : layersVal d = some (.arr xs)) :
    layersVal (setLayers d es) = some (.arr es) := by
  cases d with
  | obj top =>
    simp only [layersVal] at h
    split at h
    · rename_i m1 hmt
      split at h
      · rename_i m2 hmc
        split at h
        · rename_i m3 hcf
          simp [setLayers, layersVal, setInMt, setInMc, setInCf, setInLs,
            getKey?_updateKey_self, hmt, hmc, hcf, h]
        · exact absurd h (by simp)
      · exact absurd h (by simp)
    · exact absurd h (by simp)
  | null => exact absurd h (by simp [layersVal])
  | bool b => exact absurd h (by simp [layersVal])
  | num l => exact absurd h (by simp [layersVal])
  | str s => exact absurd h (by simp [layersVal])
  | arr ys => exact absurd h (by simp [layersVal])

theorem patch1_build (top : List (String × Json)) (xs ys : List Json)
    (hlv : layersVal (.obj top) = some (.arr xs))
    (hm : mapME patchLayer xs = .ok ys) :
    patch1 (.obj top) = .ok (setLayers (.obj top) ys) := by
  have hgl := getLayers_of_layersVal top _ hlv
  simp [patch1, hgl, iterElems, hm]

theorem patch1_cases (d j1 : Json) (h : patch1 d = .ok j1) :
    ∃ top, d = .obj top ∧
      ((j1 = d ∧ ∀ xs, layersVal d ≠ some (.arr xs)) ∨
       (∃ xs ys, layersVal d = some (.arr xs) ∧ mapME patchLayer xs = .ok ys ∧
          j1 = setLayers d ys)) := by
  cases d with
  | obj top =>
    refine ⟨top, rfl, ?_⟩
    simp only [patch1] at h
    split at h
    · exact absurd h (by simp)
    · rename_i ls hgl
      split at h
      · exact absurd h (by simp)
      · rename_i es hiter
        split at h
        · exact absurd h (by simp)
        · rename_i es2 hm
          simp only [Except.ok.injEq] at h
          rcases getLayers_ok_cases top ls hgl with hlv | ⟨hls, hlv⟩
          · cases ls with
            | arr xs =>
              simp only [iterElems, Except.ok.injEq] at hiter
              subst hiter
              exact Or.inr ⟨xs, es2, hlv, hm, h.symm⟩
            | obj kvs2 =>
              cases kvs2 with
              | nil =>
                simp only [iterElems, List.map_nil, Except.ok.injEq] at hiter
                subst hiter
                simp only [mapME, Except.ok.injEq] at hm
                subst hm
                have hid : setLayers (Json.obj top) [] = Json.obj top := by
                  refine setLayers_id_of_not_arr _ _ ?_
                  intro xs hxs
                  rw [hlv] at hxs
                  simp at hxs
                exact Or.inl ⟨by rw [← h, hid], by intro xs hxs; rw [hlv] at hxs; simp at hxs⟩
              | cons p rest =>
                simp only [iterElems, List.map_cons, Except.ok.injEq] at hiter
                subst hiter
                simp [mapME, patchLayer] at hm
            | str s =>
              obtain ⟨cl⟩ := s
              cases cl with
              | nil =>
                simp only [iterElems, List.map_nil, Except.ok.injEq] at hiter
                subst hiter
                simp only [mapME, Except.ok.injEq] at hm
                subst hm
                have hid : setLayers (Json.obj top) [] = Json.obj top := by
                  refine setLayers_id_of_not_arr _ _ ?_
                  intro xs hxs
                  rw [hlv] at hxs
                  simp at hxs
                exact Or.inl ⟨by rw [← h, hid], by intro xs hxs; rw [hlv] at hxs; simp at hxs⟩
              | cons c2 rest =>
                simp only [iterElems, List.map_cons, Except.ok.injEq] at hiter
                subst hiter
                simp [mapME, patchLayer] at hm
            | null => simp [iterElems] at hiter
            | bool b => simp [iterElems] at hiter
            | num l => simp [iterElems] at hiter
          · subst hls
            simp only [iterElems, Except.ok.injEq] at hiter
            subst hiter
            simp only [mapME, Except.ok.injEq] at hm
            subst hm
            have hid : setLayers (Json.obj top) [] = Json.obj top := by
              refine setLayers_id_of_not_arr _ _ ?_
              intro xs hxs
              rw [hlv] at hxs
              simp at hxs
            exact Or.inl ⟨by rw [← h, hid], by intro xs hxs; rw [hlv] at hxs; simp at hxs⟩
  | null => exact absurd h (by simp [patch1])
  | bool b => exact absurd h (by simp [patch1])
  | num l => exact absurd h (by simp [patch1])
  | str s => exact absurd h (by simp [patch1])
  | arr xs => exact absurd h (by simp [patch1])

theorem patch1_idem (d j1 : Json) (h : patch1 d = .ok j1) : patch1 j1 = .ok j1 := by
  rcases patch1_cases d j1 h with ⟨top, rfl, hcase⟩
  rcases hcase with ⟨rfl, hnone⟩ | ⟨xs, ys, hlv, hm, rfl⟩
  · exact h
  · have hlv2 : layersVal (setLayers (Json.obj top) ys) = some (.arr ys) :=
      layersVal_setLayers _ xs ys hlv
    have hall : ∀ y ∈ ys, patchLayer y = .ok y := by
      intro y hy
      rcases mapME_mem_ok patchLayer xs ys hm y hy with ⟨x, _, hxy⟩
      exact patchLayer_idem x y hxy
    have hm2 : mapME patchLayer ys = .ok ys := mapME_ok_of_all _ _ hall
    have hform : setLayers (Json.obj top) ys
        = Json.obj (updateKey top "modelTopology" (setInMt ys)) := rfl
    rw [hform] at hlv2 ⊢
    rw [patch1_build _ ys ys hlv2 hm2]
    rw [setLayers_self _ ys hlv2]

theorem getLayers_updateKey_wm (top : List (String × Json)) (f : Json → Json) :
    getLayers (updateKey top "weightsManifest" f) = getLayers top := by
  simp only [getLayers, lookupD,
    getKey?_updateKey_ne top "weightsManifest" "modelTopology" f (by decide)]

theorem patch1_updateKey_wm (T T1 : List (String × Json)) (f : Json → Json)
    (h : patch1 (.obj T) = .ok (.obj T1)) :
    patch1 (.obj (updateKey T "weightsManifest" f))
      = .ok (.obj (updateKey T1 "weightsManifest" f)) := by
  simp only [patch1] at h ⊢
  rw [getLayers_updateKey_wm]
  split at h
  · exact absurd h (by simp)
  · rename_i ls hgl
    split at h
    · exact absurd h (by simp)
    · rename_i es hiter
      split at h
      · exact absurd h (by simp)
      · rename_i es2 hm
        simp only [Except.ok.injEq] at h ⊢
        have hT1 : T1 = updateKey T "modelTopology" (setInMt es2) := by
          have h2 : Json.obj (updateKey T "modelTopology" (setInMt es2)) = Json.obj T1 := h
          simpa using h2.symm
        rw [hT1]
        show setLayers (Json.obj (updateKey T "weightsManifest" f)) es2 = _
    
        have hcomm := updateKey_comm T "weightsManifest" "modelTopology"
          f (setInMt es2) (by decide)
        simp [setLayers, hcomm]

/-! ### The manifest pass `patch2` -/

theorem patch2_build (t : List (String × Json)) (gs gs2 : List Json)
    (hw : getKey? t "weightsManifest" = some (.arr gs))
    (hm : mapME patchGroup gs = .ok gs2) :
    patch2 (.obj t) = .ok (.obj (updateKey t "weightsManifest" (wmRepl gs2))) := by
  simp [patch2, lookupD, hw, iterElems, hm]

theorem patch2_cases (j1 d' : Json) (h : patch2 j1 = .ok d') :
    ∃ t1, j1 = .obj t1 ∧
      ((d' = j1 ∧ ∀ gs, getKey? t1 "weightsManifest" ≠ some (.arr gs)) ∨
       (∃ gs gs2, getKey? t1 "weightsManifest" = some (.arr gs) ∧
          mapME patchGroup gs = .ok gs2 ∧
          d' = .obj (updateKey t1 "weightsManifest" (wmRepl gs2)))) := by
  cases j1 with
  | obj t1 =>
    refine ⟨t1, rfl, ?_⟩
    cases hw : getKey? t1 "weightsManifest" with
    | none =>
      have hL : lookupD t1 "weightsManifest" (.arr []) = .arr [] := by simp [lookupD, hw]
      simp only [patch2, hL, iterElems, mapME, Except.ok.injEq] at h
      rw [updateKey_absent _ _ _ hw] at h
      exact Or.inl ⟨h.symm, by simp [hw]⟩
    | some wmv =>
      have hL : lookupD t1 "weightsManifest" (.arr []) = wmv := by simp [lookupD, hw]
      cases wmv with
      | arr gsv =>
        simp only [patch2, hL, iterElems] at h
        split at h
        · exact absurd h (by simp)
        · rename_i gs2 hm
          simp only [Except.ok.injEq] at h
          exact Or.inr ⟨gsv, gs2, rfl, hm, h.symm⟩
      | obj o =>
        cases o with
        | nil =>
          simp only [patch2, hL, iterElems, List.map_nil, mapME, Except.ok.injEq] at h
          rw [updateKey_id_first t1 _ _ _ hw rfl] at h
          exact Or.inl ⟨h.symm, by simp [hw]⟩
        | cons p rest =>
          simp [patch2, hL, iterElems, mapME, patchGroup] at h
      | str s =>
        obtain ⟨cl⟩ := s
        cases cl with
        | nil =>
          simp only [patch2, hL, iterElems, List.map_nil, mapME, Except.ok.injEq] at h
          rw [updateKey_id_first t1 _ _ _ hw rfl] at h
          exact Or.inl ⟨h.symm, by simp [hw]⟩
        | cons c2 rest =>
          simp [patch2, hL, iterElems, mapME, patchGroup] at h
      | null => simp [patch2, hL, iterElems] at h
      | bool b => simp [patch2, hL, iterElems] at h
      | num l => simp [patch2, hL, iterElems] at h
  | null => exact absurd h (by simp [patch2])
  | bool b => exact absurd h (by simp [patch2])
  | num l => exact absurd h (by simp [patch2])
  | str s => exact absurd h (by simp [patch2])
  | arr xs => exact absurd h (by simp [patch2])

/-! ### Congruence of the observables along both passes -/

theorem weightNames_updateKey_mt (top : List (String × Json)) (f : Json → Json) :
    weightNames (.obj (updateKey top "modelTopology" f)) = weightNames (.obj top) := by
  simp only [weightNames,
    getKey?_updateKey_ne top "modelTopology" "weightsManifest" f (by decide)]

theorem weightNames_setLayers (d : Json) (es : List Json) :
    weightNames (setLayers d es) = weightNames d := by
  cases d with
  | obj top => exact weightNames_updateKey_mt top (setInMt es)
  | null => rfl
  | bool b => rfl
  | num l => rfl
  | str s => rfl
  | arr xs => rfl

theorem layersVal_updateKey_wm (top : List (String × Json)) (f : Json → Json) :
    layersVal (.obj (updateKey top "weightsManifest" f)) = layersVal (.obj top) := by
  simp only [layersVal,
    getKey?_updateKey_ne top "weightsManifest" "modelTopology" f (by decide)]

/-! ### The scrubbing erasure is invariant under both passes -/

theorem scrubCf_setInCf (es : List Json) (v : Json) :
    scrubCfF (setInCf es v) = scrubCfF v := by
  cases v with
  | obj m3 =>
    simp only [setInCf, scrubCfF, updateKey_updateKey]
  | null => rfl
  | bool b => rfl
  | num l => rfl
  | str s => rfl
  | arr xs => rfl

theorem scrubMc_setInMc (es : List Json) (v : Json) :
    scrubMcF (setInMc es v) = scrubMcF v := by
  cases v with
  | obj m2 =>
    simp only [setInMc, scrubMcF, updateKey_updateKey]
    exact congrArg Json.obj (updateKey_ext _ _ _ _ (scrubCf_setInCf es))
  | null => rfl
  | bool b => rfl
  | num l => rfl
  | str s => rfl
  | arr xs => rfl

theorem scrubMt_setInMt (es : List Json) (v : Json) :
    scrubMtF (setInMt es v) = scrubMtF v := by
  cases v with
  | obj m1 =>
    simp only [setInMt, scrubMtF, updateKey_updateKey]
    exact congrArg Json.obj (updateKey_ext _ _ _ _ (scrubMc_setInMc es))
  | null => rfl
  | bool b => rfl
  | num l => rfl
  | str s => rfl
  | arr xs => rfl

theorem scrubDoc_setLayers (d : Json) (es : List Json) :
    scrubDoc (setLayers d es) = scrubDoc d := by
  cases d with
  | obj top =>
    have hx : updateKey (updateKey top "modelTopology" (setInMt es)) "modelTopology" scrubMtF
        = updateKey top "modelTopology" scrubMtF := by
      rw [updateKey_updateKey]
      exact updateKey_ext _ _ _ _ (scrubMt_setInMt es)
    simp [setLayers, scrubDoc, hx]
  | null => rfl
  | bool b => rfl
  | num l => rfl
  | str s => rfl
  | arr xs => rfl

/-! ### The whole patch -/

theorem patch_cases (d d' : Json) (h : patch d = .ok d') :
    ∃ j1, patch1 d = .ok j1 ∧ patch2 j1 = .ok d' := by
  simp only [patch] at h
  split at h
  · exact absurd h (by simp)
  · rename_i j1 hp1
    exact ⟨j1, hp1, h⟩

theorem flatten_map_map (L : List (List String)) (f : String → String) :
    (L.map (List.map f)).flatten = L.flatten.map f := by
  induction L with
  | nil => rfl
  | cons x xs ih =>
    simp only [List.map_cons, List.flatten_cons, List.map_append, ih]

/-- Rerunning the whole patch on an output all of whose weight names no
longer carry the prefix reproduces that output exactly. -/
theorem patch_idem_of_stripped (d d' : Json) (h : patch d = .ok d')
    (hnames : (weightNames d').all (fun s => !pyStartsWith s "sequential/") = true) :
    patch d' = .ok d' := by
  rcases patch_cases d d' h with ⟨j1, hp1, hp2⟩
  rcases patch2_cases j1 d' hp2 with ⟨t1, rfl, hcase⟩
  have hp1i : patch1 (Json.obj t1) = .ok (Json.obj t1) := patch1_idem d _ hp1
  rcases hcase with ⟨rfl, hnoarr⟩ | ⟨gs, gs2, hw, hm, rfl⟩
  · simp only [patch, hp1i]
    exact hp2
  · have hp1' : patch1 (Json.obj (updateKey t1 "weightsManifest" (wmRepl gs2)))
        = .ok (Json.obj (updateKey t1 "weightsManifest" (wmRepl gs2))) :=
      patch1_updateKey_wm t1 t1 (wmRepl gs2) hp1i
    have hw' : getKey? (updateKey t1 "weightsManifest" (wmRepl gs2)) "weightsManifest"
        = some (.arr gs2) := by
      rw [getKey?_updateKey_self, hw]
      rfl
    have hwn : weightNames (Json.obj (updateKey t1 "weightsManifest" (wmRepl gs2)))
        = (gs2.map groupNames).flatten := by
      simp [weightNames, hw']
    have hgall : ∀ g ∈ gs2, ∀ s ∈ groupNames g, pyStartsWith s "sequential/" = false := by
      intro g hg s hs
      have hmem : s ∈ weightNames (Json.obj (updateKey t1 "weightsManifest" (wmRepl gs2))) := by
        rw [hwn]
        exact List.mem_flatten.mpr ⟨groupNames g, List.mem_map.mpr ⟨g, hg, rfl⟩, hs⟩
      have hb := (List.all_eq_true.mp hnames) s hmem
      simpa using hb
    have hallg : ∀ g ∈ gs2, patchGroup g = .ok g := by
      intro g hg
      rcases mapME_mem_ok patchGroup gs gs2 hm g hg with ⟨g0, _, hg0⟩
      exact patchGroup_idem g0 g hg0 (fun s hs => hgall g hg s hs)
    have hm2 : mapME patchGroup gs2 = .ok gs2 := mapME_ok_of_all _ _ hallg
    have hp2' := patch2_build (updateKey t1 "weightsManifest" (wmRepl gs2)) gs2 gs2 hw' hm2
    have hcollapse : updateKey (updateKey t1 "weightsManifest" (wmRepl gs2))
        "weightsManifest" (wmRepl gs2) = updateKey t1 "weightsManifest" (wmRepl gs2) := by
      rw [updateKey_updateKey]
      exact updateKey_congr_first t1 "weightsManifest" (.arr gs) _ _ hw rfl
    rw [hcollapse] at hp2'
    simp only [patch, hp1']
    exact hp2'

/-- What actually holds of a patched document: the rename invariant in its
non-clobber-aware form, and the weight names each stripped of one copy of
the prefix. -/
theorem patch_invariant_core (d d' : Json) (h : patch d = .ok d') :
    layersInvariant d' = true ∧ weightNames d' = (weightNames d).map stripOnce := by
  rcases patch_cases d d' h with ⟨j1, hp1, hp2⟩
  rcases patch1_cases d j1 hp1 with ⟨top, rfl, hc1⟩
  rcases patch2_cases j1 d' hp2 with ⟨t1, hj1, hc2⟩
  constructor
  · have hlvd' : layersVal d' = layersVal j1 := by
      rcases hc2 with ⟨rfl, _⟩ | ⟨gs, gs2, hw, hm, rfl⟩
      · rfl
      · rw [hj1]
        exact layersVal_updateKey_wm t1 (wmRepl gs2)
    rcases hc1 with ⟨rfl, hnone⟩ | ⟨xs, ys, hlv, hm1, rfl⟩
    · unfold layersInvariant layersOf
      rw [hlvd']
      cases hlv2 : layersVal (Json.obj top) with
      | none => simp
      | some v =>
        cases v with
        | arr zs => exact absurd hlv2 (hnone zs)
        | null => simp
        | bool b => simp
        | num l => simp
        | str s => simp
        | obj o => simp
    · have hys := layersVal_setLayers _ xs ys hlv
      unfold layersInvariant layersOf
      rw [hlvd', hys]
      rw [List.all_eq_true]
      intro L hL
      rcases mapME_mem_ok patchLayer xs ys hm1 L hL with ⟨x, _, hx⟩
      exact patchLayer_renamed x L hx
  · have hwj1 : weightNames j1 = weightNames (Json.obj top) := by
      rcases hc1 with ⟨rfl, _⟩ | ⟨xs, ys, _, _, rfl⟩
      · rfl
      · exact weightNames_setLayers _ ys
    rcases hc2 with ⟨rfl, hnoarr⟩ | ⟨gs, gs2, hw, hm, rfl⟩
    · rw [hwj1.symm, hj1]
      have hz : weightNames (Json.obj t1) = [] := by
        cases hwv : getKey? t1 "weightsManifest" with
        | none => simp [weightNames, hwv]
        | some v =>
          cases v with
          | arr zs => exact absurd hwv (hnoarr zs)
          | null => simp [weightNames, hwv]
          | bool b => simp [weightNames, hwv]
          | num l => simp [weightNames, hwv]
          | str s => simp [weightNames, hwv]
          | obj o => simp [weightNames, hwv]
      rw [hz]
      rfl
    · have hw' : getKey? (updateKey t1 "weightsManifest" (wmRepl gs2)) "weightsManifest"
          = some (.arr gs2) := by
        rw [getKey?_updateKey_self, hw]
        rfl
      have hL : weightNames (Json.obj (updateKey t1 "weightsManifest" (wmRepl gs2)))
          = (gs2.map groupNames).flatten := by
        simp [weightNames, hw']
      have hR : weightNames j1 = (gs.map groupNames).flatten := by
        rw [hj1]
        simp [weightNames, hw]
      have hmapg : gs2.map groupNames = gs.map (fun g => (groupNames g).map stripOnce) :=
        mapME_map_eq patchGroup groupNames (fun g => (groupNames g).map stripOnce)
          gs gs2 hm (fun x y hxy => patchGroup_names x y hxy)
      rw [hL, hmapg, ← hwj1, hR]
      have : gs.map (fun g => (groupNames g).map stripOnce)
          = (gs.map groupNames).map (List.map stripOnce) := by
        rw [List.map_map]
        rfl
      rw [this, flatten_map_map]

/-- Everything outside the layers region and the weight names is unchanged:
erasing those two regions from input and output yields equal documents. -/
theorem patch_frame (d d' : Json) (h : patch d = .ok d') :
    scrubDoc d' = scrubDoc d := by
  rcases patch_cases d d' h with ⟨j1, hp1, hp2⟩
  rcases patch1_cases d j1 hp1 with ⟨top, rfl, hc1⟩
  have hs1 : scrubDoc j1 = scrubDoc (Json.obj top) := by
    rcases hc1 with ⟨rfl, _⟩ | ⟨xs, ys, _, _, rfl⟩
    · rfl
    · exact scrubDoc_setLayers _ ys
  rcases patch2_cases j1 d' hp2 with ⟨t1, hj1, hc2⟩
  rcases hc2 with ⟨rfl, _⟩ | ⟨gs, gs2, hw, hm, rfl⟩
  · exact hs1
  · subst hj1
    rw [← hs1]
    simp only [scrubDoc]
    rw [updateKey_comm _ "weightsManifest" "modelTopology" _ _ (by decide)]
    rw [updateKey_updateKey]
    refine congrArg Json.obj (updateKey_congr_first _ _ (.arr gs) _ _ ?_ ?_)
    · rw [getKey?_updateKey_ne _ _ _ _ (by decide)]
      exact hw
    · show scrubWmF (.arr gs2) = scrubWmF (.arr gs)
      simp only [scrubWmF]
      have hmaps : gs2.map scrubGroup = gs.map scrubGroup :=
        mapME_map_eq patchGroup scrubGroup scrubGroup gs gs2 hm
          (fun x y hxy => patchGroup_scrub x y hxy)
      rw [hmaps]

/-! ### Missing paths and mistyped values -/

theorem hasEntry_false_iff (kvs : List (String × Json)) (k : String)
    (h : hasEntry kvs k = false) : getKey? kvs k = none := by
  cases hx : getKey? kvs k with
  | none => rfl
  | some v => rw [hasEntry, hx] at h; simp at h

theorem patch1_of_absent (top : List (String × Json))
    (h : layersPathAbsent (.obj top) = true) : patch1 (.obj top) = .ok (.obj top) := by
  have hkey : getLayers top = .ok (.arr []) ∧ layersVal (.obj top) = none := by
    simp only [layersPathAbsent] at h
    split at h
    · rename_i hg1
      exact ⟨by simp [getLayers, lookupD, hg1, getKey?], by simp [layersVal, hg1]⟩
    · rename_i m1 hg1
      split at h
      · rename_i hg2
        exact ⟨by simp [getLayers, lookupD, hg1, hg2, getKey?], by simp [layersVal, hg1, hg2]⟩
      · rename_i m2 hg2
        split at h
        · rename_i hg3
          exact ⟨by simp [getLayers, lookupD, hg1, hg2, hg3, getKey?],
            by simp [layersVal, hg1, hg2, hg3]⟩
        · rename_i m3 hg3
          have hfal : hasEntry m3 "layers" = false := by
            cases hE : hasEntry m3 "layers"
            · rfl
            · rw [hE] at h; simp at h
          have hg4 : getKey? m3 "layers" = none := hasEntry_false_iff _ _ hfal
          exact ⟨by simp [getLayers, lookupD, hg1, hg2, hg3, hg4],
            by simp [layersVal, hg1, hg2, hg3, hg4]⟩
        · exact absurd h (by simp)
      · exact absurd h (by simp)
    · exact absurd h (by simp)
  have hid : setLayers (Json.obj top) [] = Json.obj top := by
    refine setLayers_id_of_not_arr _ _ ?_
    intro xs hxs
    rw [hkey.2] at hxs
    cases hxs
  simp [patch1, hkey.1, iterElems, mapME, hid]

theorem patch2_of_no_wm (t : List (String × Json))
    (h : hasEntry t "weightsManifest" = false) : patch2 (.obj t) = .ok (.obj t) := by
  have hw : getKey? t "weightsManifest" = none := hasEntry_false_iff _ _ h
  have hL : lookupD t "weightsManifest" (.arr []) = .arr [] := by simp [lookupD, hw]
  simp [patch2, hL, iterElems, mapME, updateKey_absent t _ _ hw]

theorem patch1_keeps_no_wm (d j1 : Json) (h : patch1 d = .ok j1)
    (hwm : topHasKey d "weightsManifest" = false) :
    topHasKey j1 "weightsManifest" = false := by
  rcases patch1_cases d j1 h with ⟨top, rfl, hc⟩
  rcases hc with ⟨rfl, _⟩ | ⟨xs, ys, _, _, rfl⟩
  · exact hwm
  · show topHasKey (Json.obj (updateKey top "modelTopology" (setInMt ys))) _ = false
    simpa [topHasKey, hasEntry,
      getKey?_updateKey_ne top "modelTopology" "weightsManifest" (setInMt ys) (by decide)]
      using hwm

theorem patch_mistyped_mt (top : List (String × Json)) (v : Json)
    (hmt : getKey? top "modelTopology" = some v) (hno : ∀ m, v ≠ .obj m) :
    patch (.obj top) = .error .attributeError := by
  have hgl : getLayers top = .error .attributeError := by
    cases v with
    | obj m => exact absurd rfl (hno m)
    | null => simp [getLayers, lookupD, hmt]
    | bool b => simp [getLayers, lookupD, hmt]
    | num l => simp [getLayers, lookupD, hmt]
    | str s => simp [getLayers, lookupD, hmt]
    | arr xs => simp [getLayers, lookupD, hmt]
  simp [patch, patch1, hgl]

theorem patchWeight_mistyped (kvs : List (String × Json)) (v : Json)
    (hn : getKey? kvs "name" = some v) (hno : ∀ s, v ≠ .str s) :
    patchWeight (.obj kvs) = .error .attributeError := by
  have hL : lookupD kvs "name" (.str "") = v := by simp [lookupD, hn]
  cases v with
  | str s => exact absurd rfl (hno s)
  | null => simp [patchWeight, hL]
  | bool b => simp [patchWeight, hL]
  | num l => simp [patchWeight, hL]
  | arr xs => simp [patchWeight, hL]
  | obj o => simp [patchWeight, hL]

/-! ### Concrete documents used as counterexamples and witnesses -/

def cexDouble0 : Json := .obj [("weightsManifest", .arr [.obj [("weights",
  .arr [.obj [("name", .str "sequential/sequential/conv")]])]])]

def cexDouble1 : Json := .obj [("weightsManifest", .arr [.obj [("weights",
  .arr [.obj [("name", .str "sequential/conv")]])]])]

def cexDouble2 : Json := .obj [("weightsManifest", .arr [.obj [("weights",
  .arr [.obj [("name", .str "conv")]])]])]

def idemW0 : Json := .obj [("weightsManifest", .arr [.obj [("weights",
  .arr [.obj [("name", .str "sequential/w")]])]]), ("other", .num "1")]

def idemW1 : Json := .obj [("weightsManifest", .arr [.obj [("weights",
  .arr [.obj [("name", .str "w")]])]]), ("other", .num "1")]

def cexClobber : Json := .obj [("modelTopology", .obj [("model_config", .obj [("config",
  .obj [("layers", .arr [.obj [("class_name", .str "InputLayer"), ("config",
    .obj [("batch_shape", .arr [Json.null]), ("batch_input_shape", .arr [Json.null])])]])])])])]

def invW0 : Json := .obj [("modelTopology", .obj [("model_config", .obj [("config",
  .obj [("layers", .arr [.obj [("class_name", .str "InputLayer"), ("config",
    .obj [("batch_shape", .arr [Json.null])])]])])])]),
  ("weightsManifest", .arr [.obj [("weights", .arr [.obj [("name", .str "sequential/k")]])]])]

def invW1 : Json := .obj [("modelTopology", .obj [("model_config", .obj [("config",
  .obj [("layers", .arr [.obj [("class_name", .str "InputLayer"), ("config",
    .obj [("batch_input_shape", .arr [Json.null])])]])])])]),
  ("weightsManifest", .arr [.obj [("weights", .arr [.obj [("name", .str "k")]])]])]

def frameW0 : Json := .obj [("keep", .str "value"), ("weightsManifest", .arr [.obj [("weights",
  .arr [.obj [("name", .str "sequential/b"), ("shape", .arr [.num "3"])]])]])]

def frameW1 : Json := .obj [("keep", .str "value"), ("weightsManifest", .arr [.obj [("weights",
  .arr [.obj [("name", .str "b"), ("shape", .arr [.num "3"])]])]])]

def cexMT : Json := .obj [("modelTopology", .num "5")]

def absentW : Json := .obj [("modelTopology", .obj [("model_config",
  .obj [("other", Json.null)])]), ("extra", .bool true)]

def cexLayersStr : Json := .obj [("modelTopology", .obj [("model_config",
  .obj [("config", .obj [("layers", .str "")])])])]

/-! ### The claims -/

/-- C1 counterexample: the Patcher is not idempotent as claimed.  On the
document whose single weight name is `sequential/sequential/conv`, one run
strips one copy of the prefix and a second run strips another, so
`patch (patch d) ≠ patch d`. -/
theorem C1_counterexample :
    patch cexDouble0 = .ok cexDouble1 ∧ patch cexDouble1 = .ok cexDouble2 ∧
      cexDouble1 ≠ cexDouble2 :=
  ⟨rfl, rfl, fun hEq => absurd (congrArg weightNames hEq) (by decide)⟩

/-- C1 (amended): the Patcher is idempotent on every document whose patched
form carries no weight name still beginning with `sequential/` (equivalently,
whenever the script's own post-write check would report zero residual
occurrences among the weight names): if `patch d = ok d'` and no name in
`d'` starts with the prefix, then `patch d' = ok d'`. -/
theorem C1_idempotence_amended (d d' : Json) (h : patch d = .ok d')
    (hstripped : (weightNames d').all (fun s => !pyStartsWith s "sequential/") = true) :
    patch d' = .ok d' :=
  patch_idem_of_stripped d d' h hstripped

/-- C1 witness: a concrete run of the amended idempotence theorem. -/
theorem C1_witness :
    patch idemW0 = .ok idemW1 ∧
      (weightNames idemW1).all (fun s => !pyStartsWith s "sequential/") = true ∧
      patch idemW1 = .ok idemW1 :=
  ⟨rfl, rfl, C1_idempotence_amended idemW0 idemW1 rfl rfl⟩

/-- C2 counterexample: the claimed invariant "no InputLayer descriptor has a
`batch_shape` key after patching, for every input" fails.  A descriptor that
already carries `batch_input_shape` is deliberately not renamed (the
non-clobber rule), so its `batch_shape` key survives the patch. -/
theorem C2_counterexample :
    patch cexClobber = .ok cexClobber ∧ strictInvariant cexClobber = false :=
  ⟨rfl, rfl⟩

/-- C2 (amended): after the Patcher runs, (1) no `InputLayer` descriptor with
an object config carries `batch_shape` without also carrying
`batch_input_shape` (when `batch_input_shape` pre-existed, `batch_shape` is
left in place), and (2) the weight-name list of the output is the input's
list with one leading `sequential/` stripped from each name that had it (so
a name beginning with the doubled prefix retains one copy). -/
theorem C2_invariant_amended (d d' : Json) (h : patch d = .ok d') :
    layersInvariant d' = true ∧ weightNames d' = (weightNames d).map stripOnce :=
  patch_invariant_core d d' h

/-- C2 witness: a concrete run of the amended invariant theorem. -/
theorem C2_witness :
    patch invW0 = .ok invW1 ∧
      (layersInvariant invW1 = true ∧ weightNames invW1 = (weightNames invW0).map stripOnce) :=
  ⟨rfl, C2_invariant_amended invW0 invW1 rfl⟩

/-- C3: targeted rename.  A layer descriptor whose `class_name` is exactly
`InputLayer`, whose config carries `batch_shape` with value `V` and no
`batch_input_shape`, is rewritten so that its config carries
`batch_input_shape = V` and no `batch_shape`; a descriptor with any other
(or no) `class_name` passes through the loop body unmodified regardless of
its config keys. -/
theorem C3_targeted_rename :
    (∀ kvs c V, getKey? kvs "class_name" = some (.str "InputLayer") →
      getKey? kvs "config" = some (.obj c) →
      getKey? c "batch_shape" = some V →
      hasEntry c "batch_input_shape" = false →
      patchLayer (.obj kvs) = .ok (.obj (setKey kvs "config"
          (.obj (setKey (removeKey c "batch_shape") "batch_input_shape" V)))) ∧
        getKey? (setKey (removeKey c "batch_shape") "batch_input_shape" V)
          "batch_input_shape" = some V ∧
        hasEntry (setKey (removeKey c "batch_shape") "batch_input_shape" V)
          "batch_shape" = false) ∧
    (∀ kvs, getKey? kvs "class_name" ≠ some (.str "InputLayer") →
      patchLayer (.obj kvs) = .ok (.obj kvs)) := by
  constructor
  · intro kvs c V h1 h2 h3 h4
    have hcls : lookupD kvs "class_name" .null = .str "InputLayer" := by simp [lookupD, h1]
    have hcfg : lookupD kvs "config" (.obj []) = .obj c := by simp [lookupD, h2]
    have hbs : hasEntry c "batch_shape" = true := by simp [hasEntry, h3]
    have hv : lookupD c "batch_shape" .null = V := by simp [lookupD, h3]
    refine ⟨?_, getKey?_setKey_self _ _ _, ?_⟩
    · simp [patchLayer, hcls, hcfg, pyContains, hbs, h4, hv]
    · rw [hasEntry, getKey?_setKey_ne _ _ _ _ (by decide), getKey?_removeKey_self]
      rfl
  · intro kvs hne
    cases hg : getKey? kvs "class_name" with
    | none => simp [patchLayer, lookupD, hg]
    | some v =>
      have hL : lookupD kvs "class_name" .null = v := by simp [lookupD, hg]
      cases v with
      | str cn =>
        have hcn : cn ≠ "InputLayer" := by
          intro hc
          exact hne (by rw [hg, hc])
        simp [patchLayer, hL, hcn]
      | null => simp [patchLayer, hL]
      | bool b => simp [patchLayer, hL]
      | num l => simp [patchLayer, hL]
      | arr xs => simp [patchLayer, hL]
      | obj o => simp [patchLayer, hL]

/-- C3 witness: the rename fires on a concrete `InputLayer` descriptor and a
concrete `Dense` descriptor passes through unchanged. -/
theorem C3_witness :
    patchLayer (.obj [("class_name", .str "InputLayer"),
        ("config", .obj [("batch_shape", Json.null)])])
      = .ok (.obj [("class_name", .str "InputLayer"),
        ("config", .obj [("batch_input_shape", Json.null)])]) ∧
    patchLayer (.obj [("class_name", .str "Dense"),
        ("config", .obj [("batch_shape", Json.null)])])
      = .ok (.obj [("class_name", .str "Dense"),
        ("config", .obj [("batch_shape", Json.null)])]) := by
  constructor
  · exact (C3_targeted_rename.1 [("class_name", .str "InputLayer"),
      ("config", .obj [("batch_shape", Json.null)])]
      [("batch_shape", Json.null)] Json.null rfl rfl rfl rfl).1
  · exact C3_targeted_rename.2 [("class_name", .str "Dense"),
      ("config", .obj [("batch_shape", Json.null)])] (by simp [getKey?])

/-- C4: prefix strip.  A weight descriptor whose `name` equals
`"sequential/" ++ suffix` has its name replaced by exactly `suffix` (the
leading 11 characters removed, nothing else changed); a name not starting
with the literal prefix is left unchanged; a name equal to exactly
`"sequential/"` becomes the empty string. -/
theorem C4_prefix_strip :
    (∀ kvs suffix, getKey? kvs "name" = some (.str ("sequential/" ++ suffix)) →
      patchWeight (.obj kvs) = .ok (.obj (setKey kvs "name" (.str suffix)))) ∧
    (∀ kvs s, getKey? kvs "name" = some (.str s) →
      pyStartsWith s "sequential/" = false →
      patchWeight (.obj kvs) = .ok (.obj kvs)) ∧
    (∀ kvs, getKey? kvs "name" = some (.str "sequential/") →
      patchWeight (.obj kvs) = .ok (.obj (setKey kvs "name" (.str "")))) := by
  have hpart1 : ∀ kvs suffix, getKey? kvs "name" = some (.str ("sequential/" ++ suffix)) →
      patchWeight (.obj kvs) = .ok (.obj (setKey kvs "name" (.str suffix))) := by
    intro kvs suffix h
    have hL : lookupD kvs "name" (.str "") = .str ("sequential/" ++ suffix) := by
      simp [lookupD, h]
    simp [patchWeight, hL, pyStartsWith_append, pyDrop_append]
  refine ⟨hpart1, ?_, ?_⟩
  · intro kvs s h hsw
    have hL : lookupD kvs "name" (.str "") = .str s := by simp [lookupD, h]
    simp [patchWeight, hL, hsw]
  · intro kvs h
    have hfull : ("sequential/" ++ "" : String) = "sequential/" := rfl
    exact hpart1 kvs "" (by rw [hfull]; exact h)

/-- C4 witness: concrete instances of all three clauses of the prefix-strip
theorem. -/
theorem C4_witness :
    patchWeight (.obj [("name", .str "sequential/kernel")])
      = .ok (.obj [("name", .str "kernel")]) ∧
    patchWeight (.obj [("name", .str "dense/kernel")])
      = .ok (.obj [("name", .str "dense/kernel")]) ∧
    patchWeight (.obj [("name", .str "sequential/")])
      = .ok (.obj [("name", .str "")]) := by
  refine ⟨?_, ?_, ?_⟩
  · exact C4_prefix_strip.1 [("name", .str "sequential/kernel")] "kernel" rfl
  · exact C4_prefix_strip.2.1 [("name", .str "dense/kernel")] "dense/kernel" rfl rfl
  · exact C4_prefix_strip.2.2 [("name", .str "sequential/")] rfl

/-- C5: non-clobber.  An `InputLayer` descriptor whose config carries both
`batch_shape` and an existing `batch_input_shape` is returned by the loop
body completely unchanged: the existing `batch_input_shape` value wins and
`batch_shape` stays in place untouched. -/
theorem C5_non_clobber (kvs c : List (String × Json))
    (h1 : getKey? kvs "class_name" = some (.str "InputLayer"))
    (h2 : getKey? kvs "config" = some (.obj c))
    (h3 : hasEntry c "batch_shape" = true)
    (h4 : hasEntry c "batch_input_shape" = true) :
    patchLayer (.obj kvs) = .ok (.obj kvs) := by
  have hcls : lookupD kvs "class_name" .null = .str "InputLayer" := by simp [lookupD, h1]
  have hcfg : lookupD kvs "config" (.obj []) = .obj c := by simp [lookupD, h2]
  simp [patchLayer, hcls, hcfg, pyContains, h3, h4]

/-- C5 witness: a concrete descriptor with both keys is untouched. -/
theorem C5_witness :
    patchLayer (.obj [("class_name", .str "InputLayer"),
        ("config", .obj [("batch_shape", Json.null), ("batch_input_shape", .bool true)])])
      = .ok (.obj [("class_name", .str "InputLayer"),
        ("config", .obj [("batch_shape", Json.null), ("batch_input_shape", .bool true)])]) :=
  C5_non_clobber [("class_name", .str "InputLayer"),
      ("config", .obj [("batch_shape", Json.null), ("batch_input_shape", .bool true)])]
    [("batch_shape", Json.null), ("batch_input_shape", .bool true)] rfl rfl rfl rfl

/-- C6: structural passthrough.  Erasing the two targeted regions (the value
at `modelTopology.model_config.config.layers`, and the weight `name` values
under `weightsManifest`) from the patched document and from the input yields
equal documents: every key and value outside those regions is unchanged. -/
theorem C6_structural_passthrough (d d' : Json) (h : patch d = .ok d') :
    scrubDoc d' = scrubDoc d :=
  patch_frame d d' h

/-- C6 witness: a concrete document with extra structure around the targeted
regions. -/
theorem C6_witness :
    patch frameW0 = .ok frameW1 ∧ scrubDoc frameW1 = scrubDoc frameW0 :=
  ⟨rfl, C6_structural_passthrough frameW0 frameW1 rfl⟩

/-- C7 counterexample: the missing-path tolerance does not hold for *every*
document lacking `weightsManifest`: this document has no `weightsManifest`
key (and no `model_config`, `config` or `layers` anywhere), yet the Patcher
raises `AttributeError` because the present `modelTopology` key is bound to a
number. -/
theorem C7_counterexample :
    topHasKey cexMT "weightsManifest" = false ∧ patch cexMT = .error .attributeError :=
  ⟨rfl, rfl⟩

/-- C7 (amended): missing keys themselves are tolerated.  (1) When the layer
path breaks off at a missing key (all values met before the break being
objects), the layer pass returns the document unchanged.  (2) When
`weightsManifest` is absent, the manifest pass changes nothing: the whole
patch returns exactly what the layer pass produced.  (3) When both regions
are absent in that sense, the Patcher succeeds and returns the document
unchanged.  (A present-but-mistyped intermediate value can still raise, as
the counterexample shows.) -/
theorem C7_missing_path_amended :
    (∀ top, layersPathAbsent (.obj top) = true → patch1 (.obj top) = .ok (.obj top)) ∧
    (∀ d d1, topHasKey d "weightsManifest" = false → patch1 d = .ok d1 →
      patch d = .ok d1) ∧
    (∀ top, layersPathAbsent (.obj top) = true →
      topHasKey (.obj top) "weightsManifest" = false → patch (.obj top) = .ok (.obj top)) := by
  have hb : ∀ d d1, topHasKey d "weightsManifest" = false → patch1 d = .ok d1 →
      patch d = .ok d1 := by
    intro d d1 hwm hp1
    have hkeep := patch1_keeps_no_wm d d1 hp1 hwm
    rcases patch1_cases d d1 hp1 with ⟨top, rfl, hc⟩
    simp only [patch, hp1]
    rcases hc with ⟨rfl, _⟩ | ⟨xs, ys, _, _, rfl⟩
    · exact patch2_of_no_wm top (by simpa [topHasKey] using hkeep)
    · exact patch2_of_no_wm _ (by simpa [topHasKey, setLayers] using hkeep)
  refine ⟨fun top h => patch1_of_absent top h, hb, ?_⟩
  intro top ha hwm
  exact hb _ _ hwm (patch1_of_absent top ha)

/-- C7 witness: a document whose layer path stops at a missing `config` key
and which has no `weightsManifest` patches to itself without error. -/
theorem C7_witness :
    layersPathAbsent absentW = true ∧ topHasKey absentW "weightsManifest" = false ∧
      patch absentW = .ok absentW :=
  ⟨rfl, rfl, C7_missing_path_amended.2.2 _ rfl rfl⟩

/-- C8: malformed input.  When the input file is missing, or its contents do
not parse as JSON, the Patcher script stops with the uncaught
malformed-input error and the file is left exactly as it was: no write
happens. -/
theorem C8_malformed_input (parseDoc : String → Option Json) (dumpDoc : Json → String)
    (file : Option String)
    (h : file = none ∨ ∃ s, file = some s ∧ parseDoc s = none) :
    runPatcher parseDoc dumpDoc file = (.error .malformedInput, file) := by
  rcases h with rfl | ⟨s, rfl, hp⟩
  · rfl
  · simp [runPatcher, hp]

/-- C8 witness: a concrete parser that rejects everything, on a present
file. -/
theorem C8_witness :
    runPatcher (fun _ => none) (fun _ => "") (some "not json")
      = (.error .malformedInput, some "not json") :=
  C8_malformed_input (fun _ => none) (fun _ => "") (some "not json")
    (Or.inr ⟨"not json", rfl, rfl⟩)

/-- C9: failure classification in the training pipeline.  Once the setup,
data, build and training stages succeed, the evaluation and checkpoint-save
stages run but their outcomes change nothing: the export stage is always
entered, the exit code is 0 exactly when the browser-bundle export succeeds
and 1 when it fails, and flipping the evaluation/save outcomes leaves the
whole run identical. -/
theorem C9_failure_classification (i dk b t e s x : Bool)
    (hi : i = true) (hd : dk = true) (hb : b = true) (ht : t = true) :
    Stage.exportBundle ∈ (runPipeline ⟨i, dk, b, t, e, s, x⟩).1 ∧
    (runPipeline ⟨i, dk, b, t, e, s, x⟩).2 = (if x then 0 else 1) ∧
    runPipeline ⟨i, dk, b, t, e, s, x⟩ = runPipeline ⟨i, dk, b, t, true, true, x⟩ := by
  subst hi hd hb ht
  cases x with
  | true => exact ⟨by simp [runPipeline], rfl, rfl⟩
  | false => exact ⟨by simp [runPipeline], rfl, rfl⟩

/-- C9 witness: evaluation and checkpoint save both fail, yet the export
stage runs and the process exits 0. -/
theorem C9_witness :
    Stage.exportBundle ∈ (runPipeline ⟨true, true, true, true, false, false, true⟩).1 ∧
    (runPipeline ⟨true, true, true, true, false, false, true⟩).2 = (if true then 0 else 1) ∧
    runPipeline ⟨true, true, true, true, false, false, true⟩
      = runPipeline ⟨true, true, true, true, true, true, true⟩ :=
  C9_failure_classification true true true true false false true rfl rfl rfl rfl

/-- C10 counterexample: type intolerance is not universal.  Here the
`layers` key is present but bound to a string (a wrongly-typed value), yet
the Patcher completes without raising and rewrites the file: iterating the
empty string simply does nothing. -/
theorem C10_counterexample :
    layersVal cexLayersStr = some (.str "") ∧ patch cexLayersStr = .ok cexLayersStr :=
  ⟨rfl, rfl⟩

/-- C10 (amended): several mistyped bindings do raise, and a raise prevents
the rewrite: (1) `modelTopology` present but bound to a non-mapping raises
`AttributeError`; (2) a weight descriptor's `name` present but bound to a
non-string raises `AttributeError`; (3) whenever the in-memory patch raises,
the script stops with that error and the file content is unchanged.  But the
tolerance is uneven: a mistyped `layers` that happens to be an empty string
or empty mapping is silently treated as nothing to patch (see the
counterexample). -/
theorem C10_type_intolerance_amended :
    (∀ top v, getKey? top "modelTopology" = some v → (∀ m, v ≠ .obj m) →
      patch (.obj top) = .error .attributeError) ∧
    (∀ kvs v, getKey? kvs "name" = some v → (∀ s, v ≠ .str s) →
      patchWeight (.obj kvs) = .error .attributeError) ∧
    (∀ parseDoc dumpDoc s j e, parseDoc s = some j → patch j = .error e →
      runPatcher parseDoc dumpDoc (some s) = (.error (.patchError e), some s)) := by
  refine ⟨patch_mistyped_mt, patchWeight_mistyped, ?_⟩
  intro parseDoc dumpDoc s j e hp he
  simp [runPatcher, hp, he]

/-- C10 witness: a numeric `modelTopology` raises, and the script leaves the
file unchanged when the patch raises. -/
theorem C10_witness :
    patch (.obj [("modelTopology", .num "7")]) = .error .attributeError ∧
    runPatcher (fun _ => some (.obj [("modelTopology", .num "7")])) (fun _ => "") (some "x")
      = (.error (.patchError .attributeError), some "x") := by
  have h1 := C10_type_intolerance_amended.1 [("modelTopology", .num "7")] (.num "7") rfl
    (fun m hEq => by cases hEq)
  exact ⟨h1, C10_type_intolerance_amended.2.2 (fun _ => some (.obj [("modelTopology", .num "7")]))
    (fun _ => "") "x" (.obj [("modelTopology", .num "7")]) .attributeError rfl h1⟩
